import Mathlib

/-!
Verification of the lab02 config-parser core: path resolution over JSON and
TOML document trees, TypeKind classification, the error taxonomy with its
exit-code mapping, parse-error locations and snippets, the path language,
and the atomic persistence protocol.

The data model and operations are shallow embeddings of the Rust sources
under src/labs/lab02_config_parser_cli/.  Rust u64/usize values are
modelled as Nat, i64 as Int; fallible operations return Except.
-/

/-- Path segments, from shared/types.rs (enum PathSeg). -/
inductive PathSeg where
  | Key (k : String)
  | Index (i : Nat)
deriving DecidableEq, Repr

/-- A ValuePath is the ordered list of segments (struct ValuePath(Vec<PathSeg>)). -/
abbrev ValuePath := List PathSeg

/-- The eleven type kinds, from shared/types.rs (enum TypeKind). -/
inductive TypeKind where
  | Null
  | Bool
  | Int
  | Uint
  | Float
  | String
  | Array
  | Object
  | Date
  | Time
  | DateTime
deriving DecidableEq, Repr

/-- Internal representation of a serde_json Number: an unsigned integer
(u64, modelled as Nat), a negative integer (i64, modelled as Int), or a
float whose value is never inspected by any verified operation. -/
inductive JNumber where
  | PosInt (v : Nat)
  | NegInt (v : Int)
  | Float
deriving DecidableEq, Repr

/-- serde_json Number::is_i64: a PosInt fits i64 iff it is at most i64::MAX;
a NegInt always does; a float never does. -/
def JNumber.is_i64 : JNumber → Bool
  | .PosInt v => decide (v ≤ 9223372036854775807)
  | .NegInt _ => true
  | .Float => false

/-- serde_json Number::is_u64: exactly the PosInt representation. -/
def JNumber.is_u64 : JNumber → Bool
  | .PosInt _ => true
  | .NegInt _ => false
  | .Float => false

/-- serde_json::Value. Objects are association lists of key/value pairs. -/
inductive Json where
  | Null
  | Bool (b : Bool)
  | Number (n : JNumber)
  | String (s : String)
  | Array (xs : List Json)
  | Object (fields : List (String × Json))

/-- First-match association-list lookup (Map::get / InlineTable::get /
Table::get key lookup semantics). -/
def mapGet {α : Type} : List (String × α) → String → Option α
  | [], _ => none
  | (k2, v) :: rest, k => if k2 = k then some v else mapGet rest k

/-- A TOML local date (toml_datetime::Date); the field values are irrelevant
to classification, only presence matters. -/
structure TomlDate where
  year : Nat
  month : Nat
  day : Nat
deriving DecidableEq, Repr

/-- A TOML local time (toml_datetime::Time). -/
structure TomlTime where
  hour : Nat
  minute : Nat
  second : Nat
deriving DecidableEq, Repr

/-- A TOML datetime literal carries an optional date part and an optional
time part (toml_datetime::Datetime; the offset does not affect kinds). -/
structure TomlDatetime where
  date : Option TomlDate
  time : Option TomlTime
deriving DecidableEq, Repr

mutual

/-- toml_edit::Item: a document-level entry. -/
inductive TomlItem where
  | None
  | Value (v : TomlValue)
  | Table (t : TomlTable)
  | ArrayOfTables (ts : List TomlTable)

/-- toml_edit::Value: a scalar, array, or inline table. -/
inductive TomlValue where
  | String (s : String)
  | Integer (i : Int)
  | Float
  | Boolean (b : Bool)
  | Datetime (dt : TomlDatetime)
  | Array (xs : List TomlValue)
  | InlineTable (fs : List (String × TomlValue))

/-- toml_edit::Table: an association list of keys to items. -/
inductive TomlTable where
  | mk (entries : List (String × TomlItem))

end

/-- Entries of a table. -/
def TomlTable.entries : TomlTable → List (String × TomlItem)
  | .mk es => es

/-- toml_edit Table::get. -/
def tableGet (t : TomlTable) (k : String) : Option TomlItem :=
  mapGet t.entries k

/-- TypeKind::from_toml_value, from shared/types.rs. -/
def TypeKind.from_toml_value : TomlValue → TypeKind
  | .Boolean _ => .Bool
  | .Integer _ => .Int
  | .Float => .Float
  | .String _ => .String
  | .Array _ => .Array
  | .InlineTable _ => .Object
  | .Datetime dt =>
    if dt.date.isSome then
      if dt.time.isSome then .DateTime else .Date
    else .Time

/-- TypeKind::from_toml_item, from shared/types.rs. -/
def TypeKind.from_toml_item : TomlItem → TypeKind
  | .Value v => TypeKind.from_toml_value v
  | .Table _ => .Object
  | .ArrayOfTables _ => .Array
  | .None => .Null

/-- TypeKind::from_json, from shared/types.rs. -/
def TypeKind.from_json : Json → TypeKind
  | .Null => .Null
  | .Bool _ => .Bool
  | .Number n =>
    if n.is_i64 then .Int
    else if n.is_u64 then .Uint
    else .Float
  | .String _ => .String
  | .Array _ => .Array
  | .Object _ => .Object

/-- PathError, from errors/path.rs.  The field Rust names `prefix` is
called `pfx` here because `prefix` is a Lean keyword. -/
inductive PathError where
  | EmptyPath
  | NotAnObject (pfx : ValuePath) (key : String) (found : TypeKind)
  | NotAnArray (pfx : ValuePath) (index : Nat) (found : TypeKind)
  | KeyNotFound (pfx : ValuePath) (key : String)
  | IndexOutOfBounds (pfx : ValuePath) (index : Nat) (len : Nat)
  | InvalidSegment (pfx : ValuePath) (segment : String) (reason : String)
  | Unsupported (pfx : ValuePath) (message : String)
deriving DecidableEq, Repr

/-- Loop body plus loop of get_json_at_path (features/read/logic.rs):
walks the remaining segments, carrying the prefix resolved so far. -/
def goJson (cur : Json) (pfx : ValuePath) : List PathSeg → Except PathError Json
  | [] => .ok cur
  | .Key k :: rest =>
    match cur with
    | .Object fields =>
      match mapGet fields k with
      | some next => goJson next (pfx ++ [.Key k]) rest
      | none => .error (.KeyNotFound pfx k)
    | _ => .error (.NotAnObject pfx k (TypeKind.from_json cur))
  | .Index i :: rest =>
    match cur with
    | .Array xs =>
      match xs[i]? with
      | some next => goJson next (pfx ++ [.Index i]) rest
      | none => .error (.IndexOutOfBounds pfx i xs.length)
    | _ => .error (.NotAnArray pfx i (TypeKind.from_json cur))

/-- get_json_at_path, from features/read/logic.rs. -/
def get_json_at_path (root : Json) (path : ValuePath) : Except PathError Json :=
  if path.isEmpty then .error .EmptyPath
  else goJson root [] path

/-- Cursor into a TOML document (enum TomlCursor, shared/types.rs). -/
inductive TomlCursor where
  | Item (i : TomlItem)
  | Value (v : TomlValue)
  | Table (t : TomlTable)

/-- TomlCursor::type_kind, from shared/types.rs: a Table cursor is
classified through an empty Item::Table, i.e. as Object. -/
def TomlCursor.type_kind : TomlCursor → TypeKind
  | .Item item => TypeKind.from_toml_item item
  | .Value val => TypeKind.from_toml_value val
  | .Table _ => TypeKind.from_toml_item (.Table (.mk []))

/-- Result of TOML resolution (enum TomlAt, shared/types.rs). -/
inductive TomlAt where
  | Item (i : TomlItem)
  | Value (v : TomlValue)
  | Table (t : TomlTable)

/-- The final wrap of the cursor into a TomlAt at the end of
get_toml_at_path. -/
def TomlCursor.toAt : TomlCursor → TomlAt
  | .Item i => .Item i
  | .Value v => .Value v
  | .Table t => .Table t

/-- Loop body plus loop of get_toml_at_path (features/read/logic.rs):
walks the remaining segments over a TomlCursor, carrying the prefix
resolved so far.  The match arms mirror the source's arm order; the
trailing Item arms catch the remaining item shapes (None, ArrayOfTables
for keys; None, Table, ArrayOfTables-with-bad-shape for indices). -/
def goToml (cur : TomlCursor) (pfx : ValuePath) : List PathSeg → Except PathError TomlCursor
  | [] => .ok cur
  | .Key k :: rest =>
    match cur with
    | .Item (.Table tbl) =>
      match tableGet tbl k with
      | some next => goToml (.Item next) (pfx ++ [.Key k]) rest
      | none => .error (.KeyNotFound pfx k)
    | .Item (.Value val) =>
      match val with
      | .InlineTable itbl =>
        match mapGet itbl k with
        | some next => goToml (.Value next) (pfx ++ [.Key k]) rest
        | none => .error (.KeyNotFound pfx k)
      | _ => .error (.NotAnObject pfx k (TypeKind.from_toml_value val))
    | .Value val =>
      match val with
      | .InlineTable itbl =>
        match mapGet itbl k with
        | some next => goToml (.Value next) (pfx ++ [.Key k]) rest
        | none => .error (.KeyNotFound pfx k)
      | _ => .error (.NotAnObject pfx k (TypeKind.from_toml_value val))
    | .Table tbl =>
      match tableGet tbl k with
      | some next => goToml (.Item next) (pfx ++ [.Key k]) rest
      | none => .error (.KeyNotFound pfx k)
    | .Item item => .error (.NotAnObject pfx k (TypeKind.from_toml_item item))
  | .Index i :: rest =>
    match cur with
    | .Item (.Value val) =>
      match val with
      | .Array xs =>
        match xs[i]? with
        | some next => goToml (.Value next) (pfx ++ [.Index i]) rest
        | none => .error (.IndexOutOfBounds pfx i xs.length)
      | _ => .error (.NotAnArray pfx i (TypeKind.from_toml_value val))
    | .Value val =>
      match val with
      | .Array xs =>
        match xs[i]? with
        | some next => goToml (.Value next) (pfx ++ [.Index i]) rest
        | none => .error (.IndexOutOfBounds pfx i xs.length)
      | _ => .error (.NotAnArray pfx i (TypeKind.from_toml_value val))
    | .Item (.ArrayOfTables aot) =>
      match aot[i]? with
      | some tbl => goToml (.Table tbl) (pfx ++ [.Index i]) rest
      | none => .error (.IndexOutOfBounds pfx i aot.length)
    | .Item item => .error (.NotAnArray pfx i (TypeKind.from_toml_item item))
    | .Table t => .error (.NotAnArray pfx i (TomlCursor.Table t).type_kind)

/-- get_toml_at_path, from features/read/logic.rs. -/
def get_toml_at_path (root : TomlItem) (path : ValuePath) : Except PathError TomlAt :=
  if path.isEmpty then .error .EmptyPath
  else (goToml (.Item root) [] path).map TomlCursor.toAt

/-- Map only the error of an Except. -/
def mapErr {α : Type} (f : PathError → PathError) : Except PathError α → Except PathError α
  | .ok a => .ok a
  | .error e => .error (f e)

/-- Push one already-resolved segment onto the front of the error's
resolved-prefix field (EmptyPath carries no such field). -/
def PathError.underSeg (s : PathSeg) : PathError → PathError
  | .EmptyPath => .EmptyPath
  | .NotAnObject p k f => .NotAnObject (s :: p) k f
  | .NotAnArray p i f => .NotAnArray (s :: p) i f
  | .KeyNotFound p k => .KeyNotFound (s :: p) k
  | .IndexOutOfBounds p i l => .IndexOutOfBounds (s :: p) i l
  | .InvalidSegment p sg r => .InvalidSegment (s :: p) sg r
  | .Unsupported p m => .Unsupported (s :: p) m

/-- Push a whole resolved prefix onto the front of the error's
resolved-prefix field. -/
def addPfx (pfx : ValuePath) (e : PathError) : PathError :=
  pfx.foldr PathError.underSeg e

/-- The resolved-prefix field an error carries, when it carries one. -/
def PathError.pfx? : PathError → Option ValuePath
  | .EmptyPath => none
  | .NotAnObject p _ _ => some p
  | .NotAnArray p _ _ => some p
  | .KeyNotFound p _ => some p
  | .IndexOutOfBounds p _ _ => some p
  | .InvalidSegment p _ _ => some p
  | .Unsupported p _ => some p

/-- Specification step for JSON resolution, written from the spec's words:
a Key segment is a container lookup on an object-like node and fails with
KeyNotFound or NotAnObject; an Index segment is a container lookup on an
array-like node and fails with IndexOutOfBounds or NotAnArray; the
found_kind is the current node's TypeKind and the local prefix is empty. -/
def specStepJson (cur : Json) : PathSeg → Except PathError Json
  | .Key k =>
    match cur with
    | .Object fields =>
      match mapGet fields k with
      | some next => .ok next
      | none => .error (.KeyNotFound [] k)
    | _ => .error (.NotAnObject [] k (TypeKind.from_json cur))
  | .Index i =>
    match cur with
    | .Array xs =>
      match xs[i]? with
      | some next => .ok next
      | none => .error (.IndexOutOfBounds [] i xs.length)
    | _ => .error (.NotAnArray [] i (TypeKind.from_json cur))

/-- Specification walk for JSON: apply the step at each segment from left
to right, extending the failing step's prefix on the way back out. -/
def specGoJson (cur : Json) : List PathSeg → Except PathError Json
  | [] => .ok cur
  | s :: rest =>
    match specStepJson cur s with
    | .error e => .error e
    | .ok next => mapErr (PathError.underSeg s) (specGoJson next rest)

/-- Specification resolution for JSON: the empty path fails fast, any other
path is walked segment by segment. -/
def specResolveJson (root : Json) (path : ValuePath) : Except PathError Json :=
  if path.isEmpty then .error .EmptyPath
  else specGoJson root path

/-- Key lookup capability of a TOML cursor, from the spec's words: the
object-like positions are a table item, an inline-table value (reached as
an item or as a value), and an array-of-tables element (table semantics). -/
def objLookup? : TomlCursor → Option (String → Option TomlCursor)
  | .Item (.Table t) => some (fun k => (tableGet t k).map TomlCursor.Item)
  | .Item (.Value (.InlineTable fs)) => some (fun k => (mapGet fs k).map TomlCursor.Value)
  | .Value (.InlineTable fs) => some (fun k => (mapGet fs k).map TomlCursor.Value)
  | .Table t => some (fun k => (tableGet t k).map TomlCursor.Item)
  | _ => none

/-- Index lookup capability of a TOML cursor, from the spec's words: the
array-like positions are an array value (reached as an item or as a value)
and an array-of-tables item, whose element is a Table cursor. -/
def arrLookup? : TomlCursor → Option (Nat × (Nat → Option TomlCursor))
  | .Item (.Value (.Array xs)) => some (xs.length, fun i => (xs[i]?).map TomlCursor.Value)
  | .Value (.Array xs) => some (xs.length, fun i => (xs[i]?).map TomlCursor.Value)
  | .Item (.ArrayOfTables ts) => some (ts.length, fun i => (ts[i]?).map TomlCursor.Table)
  | _ => none

/-- Specification step for TOML resolution, written from the spec's words:
container lookup when the cursor has the matching capability, the stated
error otherwise, with found_kind the current node's TypeKind. -/
def specStepToml (cur : TomlCursor) : PathSeg → Except PathError TomlCursor
  | .Key k =>
    match objLookup? cur with
    | some lookup =>
      match lookup k with
      | some next => .ok next
      | none => .error (.KeyNotFound [] k)
    | none => .error (.NotAnObject [] k cur.type_kind)
  | .Index i =>
    match arrLookup? cur with
    | some (len, at0) =>
      match at0 i with
      | some next => .ok next
      | none => .error (.IndexOutOfBounds [] i len)
    | none => .error (.NotAnArray [] i cur.type_kind)

/-- Specification walk for TOML. -/
def specGoToml (cur : TomlCursor) : List PathSeg → Except PathError TomlCursor
  | [] => .ok cur
  | s :: rest =>
    match specStepToml cur s with
    | .error e => .error e
    | .ok next => mapErr (PathError.underSeg s) (specGoToml next rest)

/-- Specification resolution for TOML. -/
def specResolveToml (root : TomlItem) (path : ValuePath) : Except PathError TomlAt :=
  if path.isEmpty then .error .EmptyPath
  else (specGoToml (.Item root) path).map TomlCursor.toAt

/-- ConfigFormat, from cli.rs and shared/types.rs. -/
inductive ConfigFormat where
  | Json
  | Toml
deriving DecidableEq, Repr

/-- SourceLocation, from shared/types.rs; the optional file path is
modelled as a string. -/
structure SourceLocation where
  line : Nat
  column : Nat
  file : Option String
deriving DecidableEq, Repr

/-- SourceLocation::new. -/
def SourceLocation.new (line column : Nat) : SourceLocation :=
  ⟨line, column, none⟩

/-- UsageError, from errors/usage.rs.  The Rust field `example` is called
`ex` here because `example` is a Lean keyword. -/
inductive UsageError where
  | MissingFlag (flag : String) (hint : String)
  | InvalidChoice (provided : String) (flag : String) (valid : List String)
  | ConflictingFlags (a : String) (b : String) (hint : String)
  | MissingArgument (name : String) (ex : String)
  | InvalidPathSyntax (input : String) (ex : String)

/-- FileIoError, from errors/file_io.rs. -/
inductive FileIoError where
  | ReadFailed (path : String) (reason : String) (hint : String)
  | WriteFailed (path : String) (reason : String) (hint : String)
  | TempCreateFailed (path : String) (reason : String) (hint : String)
  | AtomicReplaceFailed (temp_path : String) (final_path : String) (reason : String) (hint : String)

/-- ParseError, from errors/parse.rs; a boxed source error is modelled by
its message string. -/
inductive ParseError where
  | UnexpectedToken (format : ConfigFormat) (loc : SourceLocation) (expected : String) (found : String) (snippet : String)
  | UnexpectedEof (format : ConfigFormat) (loc : SourceLocation) (snippet : String)
  | UnterminatedString (format : ConfigFormat) (loc : SourceLocation) (snippet : String)
  | InvalidEscape (format : ConfigFormat) (loc : SourceLocation) (src : String) (snippet : String)
  | TrailingContent (format : ConfigFormat) (loc : SourceLocation) (snippet : String)
  | SyntaxError (format : ConfigFormat) (loc : SourceLocation) (expected : String) (found : String) (snippet : String)
  | ForeignParseError (format : ConfigFormat) (loc : SourceLocation) (src : String) (snippet : String)

/-- TypeError, from errors/value_type.rs. -/
inductive TypeError where
  | TypeMismatch (path : ValuePath) (expected : TypeKind) (found : TypeKind)
  | NumberOutOfRange (path : ValuePath) (target : String) (value : String) (hint : String)
  | InvalidEnumVariant (path : ValuePath) (found : String) (allowed : List String)
  | InvalidPattern (path : ValuePath) (expect_desc : String) (found : String)
  | ArrayElementTypeMismatch (path : ValuePath) (index : Nat) (expected : TypeKind) (found : TypeKind)
  | ObjectFieldTypeMismatch (path : ValuePath) (field : String) (expected : TypeKind) (found : TypeKind)
  | NullNotAllowed (path : ValuePath)

/-- NotSupportedError, from errors/not_supported.rs. -/
inductive NotSupportedError where
  | Format (format : String) (op : String) (hint : String)
  | Command (cmd : String) (hint : String)
  | Option (option : String) (hint : String)
  | Feature (feature : String) (hint : String)
  | Platform (platform : String) (what : String) (hint : String)
  | Version (component : String) (found : String) (required : String) (hint : String)
  | Combination (what : String) (hint : String)

/-- ConfigError, from errors/mod.rs.  The Rust variants `FileIO` and
`Type` are called `FileIo` and `Typ` here for Lean lexical reasons. -/
inductive ConfigError where
  | Usage (e : UsageError)
  | FileIo (e : FileIoError)
  | Parse (e : ParseError)
  | Path (e : PathError)
  | Typ (e : TypeError)
  | NotSupported (e : NotSupportedError)

/-- ConfigError::exit_code, from errors/mod.rs; ExitCode::from(n) is
modelled as the numeric code itself. -/
def ConfigError.exit_code : ConfigError → Nat
  | .Usage _ => 2
  | .FileIo _ => 3
  | .Parse _ => 3
  | .Path _ => 4
  | .Typ _ => 5
  | .NotSupported _ => 6

/-- Modelled from the spec: the persistence steps of section 4.5 (read the
raw text, parse, run the mutation, serialize, create a temporary file next
to the target, write it, atomically rename it over the original).  The
persistence driver itself is not under src/ — only the FileIoError
variants it reports through are — so the pipeline is modelled from the
spec's step sequence. -/
inductive PersistStep where
  | Read
  | Parse
  | Mutate
  | Serialize
  | TempCreate
  | TempWrite
  | Rename
deriving DecidableEq, Repr

/-- Modelled from the spec: the observable file-system state — the bytes
of the original config file and of the adjacent temporary file. -/
structure FsState where
  original : String
  temp : Option String
deriving DecidableEq, Repr

/-- Modelled from the spec: the effect each completed step has on the file
system.  Read, parse, mutate and serialize touch no file; creating the
temporary file makes it exist empty; writing fills it with the serialized
content; the rename atomically replaces the original with the temporary
file's content and removes the temporary file. -/
def PersistStep.effect (newContent : String) (st : FsState) : PersistStep → FsState
  | .Read => st
  | .Parse => st
  | .Mutate => st
  | .Serialize => st
  | .TempCreate => { st with temp := some "" }
  | .TempWrite => { st with temp := some newContent }
  | .Rename => { original := newContent, temp := none }

/-- The persistence sequence in order. -/
def persistSeq : List PersistStep :=
  [.Read, .Parse, .Mutate, .Serialize, .TempCreate, .TempWrite, .Rename]

/-- Modelled from the spec: run the steps in order; failAt is the step
whose underlying operation fails, aborting the run before that step's
effect takes place. -/
def runSteps (newContent : String) (failAt : Option PersistStep) :
    FsState → List PersistStep → FsState × Option PersistStep
  | st, [] => (st, none)
  | st, s :: rest =>
    if failAt = some s then (st, some s)
    else runSteps newContent failAt (s.effect newContent st) rest

/-- Modelled from the spec: one full persistence run over an initial file
state, producing the final file state and the failing step, if any. -/
def runPersist (st : FsState) (newContent : String) (failAt : Option PersistStep) :
    FsState × Option PersistStep :=
  runSteps newContent failAt st persistSeq

/-- Decimal digit character for a digit value (values past 9 never occur). -/
def natDigitChar : Nat → Char
  | 0 => '0'
  | 1 => '1'
  | 2 => '2'
  | 3 => '3'
  | 4 => '4'
  | 5 => '5'
  | 6 => '6'
  | 7 => '7'
  | 8 => '8'
  | _ => '9'

/-- Decimal digit run of a Nat, most significant digit first: the text
Rust's Display for usize writes for an index. -/
def natToDigits (n : Nat) : List Char :=
  if n < 10 then [natDigitChar n]
  else natToDigits (n / 10) ++ [natDigitChar (n % 10)]
termination_by n
decreasing_by
  exact Nat.div_lt_self (by omega) (by omega)

/-- Decimal rendering of a Nat. -/
def natRender (n : Nat) : String := String.mk (natToDigits n)

/-- fmt::Display for ValuePath (shared/types.rs): each segment is written
in order; a Key at position 0 is written bare, any later Key with a
leading dot, and an Index as the bracketed decimal index. -/
def renderFrom : Nat → List PathSeg → String
  | _, [] => ""
  | i, .Key k :: rest => (if i = 0 then k else "." ++ k) ++ renderFrom (i + 1) rest
  | i, .Index idx :: rest => "[" ++ natRender idx ++ "]" ++ renderFrom (i + 1) rest

/-- Canonical rendering of a ValuePath (fmt::Display from position 0). -/
def ValuePath.render (p : ValuePath) : String := renderFrom 0 p

/-- Canonical rendering of a non-leading segment: a dotted key or a
bracketed index. -/
def renderSegDotted : PathSeg → String
  | .Key k => "." ++ k
  | .Index i => "[" ++ natRender i ++ "]"

/-- Modelled from the spec: identifier characters for the path grammar.
Section 4.1 gives segment := identifier without spelling the character
class; alphanumerics plus underscore cover the spec's examples. -/
def isIdentChar (c : Char) : Bool := c.isAlphanum || c == '_'

/-- Digit characters for the index production. -/
def isDigitChar (c : Char) : Bool := c.isDigit

/-- Left-to-right decimal value of a digit run. -/
def digitsToNat (ds : List Char) : Nat :=
  ds.foldl (fun a c => a * 10 + (c.toNat - 48)) 0

/-- Modelled from the spec: the tail of the path grammar of section 4.1,
namely ( dot segment | index )*, over the remaining characters. -/
def parsePathSegs (l : List Char) : Option (List PathSeg) :=
  match l with
  | [] => some []
  | c :: cs =>
    if c = '.' then
      let id := cs.takeWhile isIdentChar
      if id = [] then none
      else
        match parsePathSegs (cs.dropWhile isIdentChar) with
        | some segs => some (PathSeg.Key (String.mk id) :: segs)
        | none => none
    else if c = '[' then
      let ds := cs.takeWhile isDigitChar
      if ds = [] then none
      else
        let rest1 := cs.dropWhile isDigitChar
        if rest1.head? = some ']' then
          match parsePathSegs rest1.tail with
          | some segs => some (PathSeg.Index (digitsToNat ds) :: segs)
          | none => none
        else none
    else none
termination_by l.length
decreasing_by
  · have h : (cs.dropWhile isIdentChar).length ≤ cs.length :=
      (List.dropWhile_sublist _).length_le
    simp only [List.length_cons]
    omega
  · have h : (cs.dropWhile isDigitChar).length ≤ cs.length :=
      (List.dropWhile_sublist _).length_le
    have h2 : (cs.dropWhile isDigitChar).tail.length ≤ (cs.dropWhile isDigitChar).length := by
      cases cs.dropWhile isDigitChar <;> simp
    simp only [List.length_cons]
    omega

/-- Modelled from the spec: the path grammar of section 4.1,
path := segment ( dot segment | index )*.  The path-string parser is not
under src/ — only the InvalidPathSyntax usage-error variant and the CLI
KEY_PATH argument refer to it — so it is modelled from the grammar. -/
def parsePath (s : String) : Option (List PathSeg) :=
  let cs := s.data
  let id := cs.takeWhile isIdentChar
  if id = [] then none
  else
    match parsePathSegs (cs.dropWhile isIdentChar) with
    | some segs => some (PathSeg.Key (String.mk id) :: segs)
    | none => none

/-- A key is well formed when nonempty and made of identifier characters. -/
def keyOk (k : String) : Bool := !k.data.isEmpty && k.data.all isIdentChar

/-- Well-formedness of one segment. -/
def segOk : PathSeg → Bool
  | .Key k => keyOk k
  | .Index _ => true

/-- Well-formed parsed paths: a leading well-formed key followed by
well-formed segments. -/
def pathOk : List PathSeg → Bool
  | PathSeg.Key k :: rest => keyOk k && rest.all segOk
  | _ => false

/-- Split a character list at every newline character (the pieces, in
order, with the newlines removed). -/
def splitNl : List Char → List (List Char)
  | [] => [[]]
  | c :: cs =>
    if c = '\n' then [] :: splitNl cs
    else
      match splitNl cs with
      | [] => [[c]]
      | l :: ls => (c :: l) :: ls

/-- Strip one trailing carriage return. -/
def rstripCRChars (l : List Char) : List Char :=
  if l.getLast? = some '\r' then l.dropLast else l

/-- Rust str::lines: split on the newline character, treating a trailing
newline as a terminator rather than opening an extra empty line, and
stripping one carriage return from the end of each line. -/
def rustLines (s : String) : List String :=
  if s.data = [] then []
  else
    let parts := splitNl s.data
    let parts := if s.data.getLast? = some '\n' then parts.dropLast else parts
    parts.map (fun l => String.mk (rstripCRChars l))

/-- extract_snippet, from shared/helpers.rs: the offending line, a
newline, column-minus-one spaces when the column is past 1, and a caret;
the empty string when the line does not exist. -/
def extract_snippet (src : String) (line : Nat) (column : Nat) : String :=
  match (rustLines src)[line - 1]? with
  | some l =>
    l ++ "\n" ++ (if column > 1 then String.mk (List.replicate (column - 1) ' ') else "") ++ "^"
  | none => ""

/-- Loop of offset_to_line_col (shared/adapters/toml.rs) over the source's
characters paired with their starting byte indices. -/
def offset_to_line_col_aux : List Char → Nat → Nat → Nat → Nat → Nat × Nat
  | [], _, _, line, col => (line, col)
  | c :: cs, i, off, line, col =>
    if i ≥ off then (line, col)
    else if c = '\n' then offset_to_line_col_aux cs (i + c.utf8Size) off (line + 1) 1
    else offset_to_line_col_aux cs (i + c.utf8Size) off line (col + 1)

/-- offset_to_line_col, from shared/adapters/toml.rs. -/
def offset_to_line_col (src : String) (off : Nat) : Nat × Nat :=
  offset_to_line_col_aux src.data 0 off 1 1

/-- The characters of the source whose starting byte index lies before
the offset. -/
def charsBefore : List Char → Nat → Nat → List Char
  | [], _, _ => []
  | c :: cs, i, off => if i ≥ off then [] else c :: charsBefore cs (i + c.utf8Size) off

/-- Location computation as the spec words it: count the newline
characters up to the byte offset for the line, and recompute the column,
resetting after each newline, both starting at 1. -/
def specLineCol (src : String) (off : Nat) : Nat × Nat :=
  let consumed := charsBefore src.data 0 off
  (1 + consumed.count '\n',
   1 + consumed.foldl (fun a c => if c = '\n' then 0 else a + 1) 0)

/-- Concatenated canonical rendering of non-leading segments. -/
def joinDotted : List PathSeg → String
  | [] => ""
  | s :: rest => renderSegDotted s ++ joinDotted rest

theorem addPfx_append (p1 p2 : ValuePath) (e : PathError) :
    addPfx (p1 ++ p2) e = addPfx p1 (addPfx p2 e) := by
  simp [addPfx, List.foldr_append]

theorem addPfx_single (s : PathSeg) (e : PathError) :
    addPfx [s] e = PathError.underSeg s e := rfl

theorem addPfx_keyNotFound (p q : ValuePath) (k : String) :
    addPfx p (.KeyNotFound q k) = .KeyNotFound (p ++ q) k := by
  induction p with
  | nil => rfl
  | cons s t ih =>
    show PathError.underSeg s (addPfx t _) = _
    rw [ih]; rfl

theorem addPfx_notAnObject (p q : ValuePath) (k : String) (f : TypeKind) :
    addPfx p (.NotAnObject q k f) = .NotAnObject (p ++ q) k f := by
  induction p with
  | nil => rfl
  | cons s t ih =>
    show PathError.underSeg s (addPfx t _) = _
    rw [ih]; rfl

theorem addPfx_notAnArray (p q : ValuePath) (i : Nat) (f : TypeKind) :
    addPfx p (.NotAnArray q i f) = .NotAnArray (p ++ q) i f := by
  induction p with
  | nil => rfl
  | cons s t ih =>
    show PathError.underSeg s (addPfx t _) = _
    rw [ih]; rfl

theorem addPfx_oob (p q : ValuePath) (i l : Nat) :
    addPfx p (.IndexOutOfBounds q i l) = .IndexOutOfBounds (p ++ q) i l := by
  induction p with
  | nil => rfl
  | cons s t ih =>
    show PathError.underSeg s (addPfx t _) = _
    rw [ih]; rfl

theorem mapErr_addPfx_nil {α : Type} (x : Except PathError α) :
    mapErr (addPfx []) x = x := by
  cases x <;> rfl

theorem goJson_cons (cur : Json) (pfx : ValuePath) (s : PathSeg) (rest : List PathSeg) :
    goJson cur pfx (s :: rest) =
      match specStepJson cur s with
      | .error e => .error (addPfx pfx e)
      | .ok next => goJson next (pfx ++ [s]) rest := by
  cases s with
  | Key k =>
    cases cur with
    | Object fields =>
      cases h : mapGet fields k <;>
        simp [goJson, specStepJson, h, addPfx_keyNotFound]
    | _ => simp [goJson, specStepJson, addPfx_notAnObject]
  | Index i =>
    cases cur with
    | Array xs =>
      cases h : xs[i]? <;>
        simp [goJson, specStepJson, h, addPfx_oob]
    | _ => simp [goJson, specStepJson, addPfx_notAnArray]

theorem goJson_eq_spec (p : List PathSeg) : ∀ (cur : Json) (pfx : ValuePath),
    goJson cur pfx p = mapErr (addPfx pfx) (specGoJson cur p) := by
  induction p with
  | nil => intro cur pfx; rfl
  | cons s rest ih =>
    intro cur pfx
    rw [goJson_cons]
    cases h : specStepJson cur s with
    | error e => simp [specGoJson, h, mapErr]
    | ok next =>
      simp only [specGoJson, h]
      rw [ih]
      cases hr : specGoJson next rest <;>
        simp [mapErr, addPfx_append, addPfx_single]

theorem goToml_cons (cur : TomlCursor) (pfx : ValuePath) (s : PathSeg) (rest : List PathSeg) :
    goToml cur pfx (s :: rest) =
      match specStepToml cur s with
      | .error e => .error (addPfx pfx e)
      | .ok next => goToml next (pfx ++ [s]) rest := by
  cases s with
  | Key k =>
    cases cur with
    | Item item =>
      cases item with
      | None =>
        simp [goToml, specStepToml, objLookup?, addPfx_notAnObject,
          TomlCursor.type_kind, TypeKind.from_toml_item]
      | Table t =>
        cases h : tableGet t k <;>
          simp [goToml, specStepToml, objLookup?, h, addPfx_keyNotFound]
      | ArrayOfTables ts =>
        simp [goToml, specStepToml, objLookup?, addPfx_notAnObject,
          TomlCursor.type_kind, TypeKind.from_toml_item]
      | Value val =>
        cases val
        case InlineTable fs =>
          cases h : mapGet fs k <;>
            simp [goToml, specStepToml, objLookup?, h, addPfx_keyNotFound]
        all_goals
          simp [goToml, specStepToml, objLookup?, addPfx_notAnObject,
            TomlCursor.type_kind, TypeKind.from_toml_item, TypeKind.from_toml_value]
    | Value val =>
      cases val
      case InlineTable fs =>
        cases h : mapGet fs k <;>
          simp [goToml, specStepToml, objLookup?, h, addPfx_keyNotFound]
      all_goals
        simp [goToml, specStepToml, objLookup?, addPfx_notAnObject,
          TomlCursor.type_kind, TypeKind.from_toml_value]
    | Table t =>
      cases h : tableGet t k <;>
        simp [goToml, specStepToml, objLookup?, h, addPfx_keyNotFound]
  | Index i =>
    cases cur with
    | Item item =>
      cases item with
      | None =>
        simp [goToml, specStepToml, arrLookup?, addPfx_notAnArray,
          TomlCursor.type_kind, TypeKind.from_toml_item]
      | Table t =>
        simp [goToml, specStepToml, arrLookup?, addPfx_notAnArray,
          TomlCursor.type_kind, TypeKind.from_toml_item]
      | ArrayOfTables ts =>
        cases h : ts[i]? <;>
          simp [goToml, specStepToml, arrLookup?, h, addPfx_oob]
      | Value val =>
        cases val
        case Array xs =>
          cases h : xs[i]? <;>
            simp [goToml, specStepToml, arrLookup?, h, addPfx_oob]
        all_goals
          simp [goToml, specStepToml, arrLookup?, addPfx_notAnArray,
            TomlCursor.type_kind, TypeKind.from_toml_item, TypeKind.from_toml_value]
    | Value val =>
      cases val
      case Array xs =>
        cases h : xs[i]? <;>
          simp [goToml, specStepToml, arrLookup?, h, addPfx_oob]
      all_goals
        simp [goToml, specStepToml, arrLookup?, addPfx_notAnArray,
          TomlCursor.type_kind, TypeKind.from_toml_value]
    | Table t =>
      simp [goToml, specStepToml, arrLookup?, addPfx_notAnArray,
        TomlCursor.type_kind, TypeKind.from_toml_item]

theorem goToml_eq_spec (p : List PathSeg) : ∀ (cur : TomlCursor) (pfx : ValuePath),
    goToml cur pfx p = mapErr (addPfx pfx) (specGoToml cur p) := by
  induction p with
  | nil => intro cur pfx; rfl
  | cons s rest ih =>
    intro cur pfx
    rw [goToml_cons]
    cases h : specStepToml cur s with
    | error e => simp [specGoToml, h, mapErr]
    | ok next =>
      simp only [specGoToml, h]
      rw [ih]
      cases hr : specGoToml next rest <;>
        simp [mapErr, addPfx_append, addPfx_single]

/-- C5: for every document of either backend, resolving the empty
ValuePath fails fast with the EmptyPath error before any lookup step,
regardless of the document's contents. -/
theorem c5_empty_path_fails_fast :
    (∀ root : Json, get_json_at_path root [] = .error .EmptyPath)
  ∧ (∀ root : TomlItem, get_toml_at_path root [] = .error .EmptyPath) :=
  ⟨fun _ => rfl, fun _ => rfl⟩

/-- C6: the exit-code mapping over ConfigError is total and fixed —
Usage 2, FileIO 3, Parse 3, Path 4, Type 5, NotSupported 6 — and no
category maps to any other code. -/
theorem c6_exit_code_mapping :
    (∀ e, ConfigError.exit_code (.Usage e) = 2)
  ∧ (∀ e, ConfigError.exit_code (.FileIo e) = 3)
  ∧ (∀ e, ConfigError.exit_code (.Parse e) = 3)
  ∧ (∀ e, ConfigError.exit_code (.Path e) = 4)
  ∧ (∀ e, ConfigError.exit_code (.Typ e) = 5)
  ∧ (∀ e, ConfigError.exit_code (.NotSupported e) = 6)
  ∧ (∀ e : ConfigError,
      e.exit_code = 2 ∨ e.exit_code = 3 ∨ e.exit_code = 4 ∨
      e.exit_code = 5 ∨ e.exit_code = 6) := by
  refine ⟨fun _ => rfl, fun _ => rfl, fun _ => rfl, fun _ => rfl,
    fun _ => rfl, fun _ => rfl, ?_⟩
  intro e
  cases e <;> simp [ConfigError.exit_code]

/-- C4: TypeKind classification is implemented by the total Lean
functions from_json and from_toml_value (hence pure, deterministic and
total into the 11 kinds), and agrees across backends: a TOML inline table
and a JSON object classify as Object, a TOML array and a JSON array as
Array, and a TOML datetime literal classifies as DateTime with both
parts, Date with only a date part, Time with only a time part. -/
theorem c4_typekind_agreement :
    (∀ fs, TypeKind.from_toml_value (.InlineTable fs) = .Object)
  ∧ (∀ fs, TypeKind.from_json (.Object fs) = .Object)
  ∧ (∀ xs, TypeKind.from_toml_value (.Array xs) = .Array)
  ∧ (∀ xs, TypeKind.from_json (.Array xs) = .Array)
  ∧ (∀ d t, TypeKind.from_toml_value (.Datetime ⟨some d, some t⟩) = .DateTime)
  ∧ (∀ d, TypeKind.from_toml_value (.Datetime ⟨some d, none⟩) = .Date)
  ∧ (∀ t, TypeKind.from_toml_value (.Datetime ⟨none, some t⟩) = .Time) := by
  refine ⟨fun _ => rfl, fun _ => rfl, fun _ => rfl, fun _ => rfl,
    fun _ _ => rfl, fun _ => rfl, fun _ => rfl⟩

/-- C1: resolution over either backend walks segments left to right; at
each step a Key on a non-object-like node fails with NotAnObject and a
missing key with KeyNotFound, an Index on a non-array-like node fails
with NotAnArray and an out-of-bounds index with IndexOutOfBounds, each
carrying the resolved prefix and the current node's TypeKind; when every
segment succeeds the node reached by the final segment is returned: the
implementations equal the resolvers written from the spec's words. -/
theorem c1_resolution_matches_spec :
    (∀ (root : Json) (path : ValuePath),
      get_json_at_path root path = specResolveJson root path)
  ∧ (∀ (root : TomlItem) (path : ValuePath),
      get_toml_at_path root path = specResolveToml root path) := by
  constructor
  · intro root path
    unfold get_json_at_path specResolveJson
    split
    · rfl
    · rw [goJson_eq_spec, mapErr_addPfx_nil]
  · intro root path
    unfold get_toml_at_path specResolveToml
    split
    · rfl
    · rw [goToml_eq_spec, mapErr_addPfx_nil]

/-- C7: modelled from the spec — the original file's bytes change only
through the final atomic rename: a failure at any earlier step leaves
them byte-for-byte unchanged, a complete run installs exactly the new
content, and in every case an observer sees exactly the old or exactly
the new content. -/
theorem c7_persist_atomic :
    ∀ (st : FsState) (newContent : String) (failAt : Option PersistStep),
      ((runPersist st newContent failAt).2 ≠ none →
        (runPersist st newContent failAt).1.original = st.original)
    ∧ ((runPersist st newContent failAt).2 = none →
        (runPersist st newContent failAt).1.original = newContent)
    ∧ ((runPersist st newContent failAt).1.original = st.original ∨
        (runPersist st newContent failAt).1.original = newContent) := by
  intro st nc failAt
  cases failAt with
  | none => simp [runPersist, persistSeq, runSteps, PersistStep.effect]
  | some s =>
    cases s <;> simp [runPersist, persistSeq, runSteps, PersistStep.effect]

/-- Witness for C7 at a concrete run: a failure during serialization
leaves the original file intact, and an unimpeded run installs the new
content. -/
theorem c7_persist_atomic_witness :
    (runPersist ⟨"old", none⟩ "new" (some PersistStep.Serialize)).1.original = "old"
  ∧ (runPersist ⟨"old", none⟩ "new" none).1.original = "new" :=
  ⟨(c7_persist_atomic ⟨"old", none⟩ "new" (some PersistStep.Serialize)).1 (by decide),
   (c7_persist_atomic ⟨"old", none⟩ "new" none).2.1 (by decide)⟩

/-- C10: TOML value classification never returns Uint or Null (every TOML
integer classifies as Int); JSON returns Uint exactly for numbers
representable as u64 but not as i64; hence a JSON integer above i64::MAX
never classifies equal to any TOML integer. -/
theorem c10_uint_reachability :
    (∀ v : TomlValue,
      TypeKind.from_toml_value v ≠ .Uint ∧ TypeKind.from_toml_value v ≠ .Null)
  ∧ (∀ i : Int, TypeKind.from_toml_value (.Integer i) = .Int)
  ∧ (∀ n : JNumber,
      TypeKind.from_json (.Number n) = .Uint ↔ (n.is_u64 = true ∧ n.is_i64 = false))
  ∧ (∀ v : Nat, 9223372036854775807 < v →
      ∀ i : Int,
        TypeKind.from_json (.Number (.PosInt v)) ≠ TypeKind.from_toml_value (.Integer i)) := by
  refine ⟨?_, fun _ => rfl, ?_, ?_⟩
  · intro v
    cases v
    case Datetime dt =>
      obtain ⟨d, t⟩ := dt
      cases d <;> cases t <;> simp [TypeKind.from_toml_value]
    all_goals simp [TypeKind.from_toml_value]
  · intro n
    cases n with
    | PosInt v =>
      by_cases h : v ≤ 9223372036854775807 <;>
        simp [TypeKind.from_json, JNumber.is_i64, JNumber.is_u64, h]
    | NegInt v =>
      simp [TypeKind.from_json, JNumber.is_i64, JNumber.is_u64]
    | Float =>
      simp [TypeKind.from_json, JNumber.is_i64, JNumber.is_u64]
  · intro v hv i
    have h : ¬ (v ≤ 9223372036854775807) := by omega
    simp [TypeKind.from_json, JNumber.is_i64, JNumber.is_u64, h,
      TypeKind.from_toml_value]

/-- Witness for C10 at i64::MAX + 1: the JSON number classifies as Uint
while a TOML integer classifies as Int. -/
theorem c10_uint_reachability_witness :
    (9223372036854775807 : Nat) < 9223372036854775808
  ∧ TypeKind.from_json (.Number (.PosInt 9223372036854775808)) ≠
      TypeKind.from_toml_value (.Integer 0) :=
  ⟨by omega, c10_uint_reachability.2.2.2 9223372036854775808 (by omega) 0⟩

theorem pfx?_underSeg (s : PathSeg) (e : PathError) (q : ValuePath)
    (h : e.pfx? = some q) : (PathError.underSeg s e).pfx? = some (s :: q) := by
  cases e <;> simp_all [PathError.pfx?, PathError.underSeg]

theorem specStepJson_error_pfx (cur : Json) (s : PathSeg) (e : PathError)
    (h : specStepJson cur s = .error e) : e.pfx? = some [] := by
  cases s <;> simp only [specStepJson] at h <;> split at h <;>
    (try split at h) <;>
    first
      | exact Except.noConfusion h
      | (injection h with h; subst h; rfl)

theorem specStepToml_error_pfx (cur : TomlCursor) (s : PathSeg) (e : PathError)
    (h : specStepToml cur s = .error e) : e.pfx? = some [] := by
  cases s <;> simp only [specStepToml] at h <;> split at h <;>
    (try split at h) <;>
    first
      | exact Except.noConfusion h
      | (injection h with h; subst h; rfl)

theorem specGoJson_error_data (p : List PathSeg) : ∀ (cur : Json) (e : PathError),
    specGoJson cur p = .error e →
    ∃ q fail rest, e.pfx? = some q ∧ p = q ++ fail :: rest ∧
      ∃ v, specGoJson cur q = .ok v := by
  induction p with
  | nil => intro cur e h; simp [specGoJson] at h
  | cons s rest ih =>
    intro cur e h
    cases hs : specStepJson cur s with
    | error e0 =>
      simp [specGoJson, hs] at h
      subst h
      exact ⟨[], s, rest, specStepJson_error_pfx cur s e0 hs, rfl, cur, rfl⟩
    | ok next =>
      simp only [specGoJson, hs] at h
      cases hr : specGoJson next rest with
      | ok v => rw [hr] at h; exact Except.noConfusion h
      | error e1 =>
        rw [hr] at h
        simp only [mapErr] at h
        injection h with h
        subst h
        obtain ⟨q, fail, rr, hp, hrest, v, hok⟩ := ih next e1 hr
        refine ⟨s :: q, fail, rr, pfx?_underSeg s e1 q hp, by simp [hrest], v, ?_⟩
        simp [specGoJson, hs, hok, mapErr]

theorem specGoToml_error_data (p : List PathSeg) : ∀ (cur : TomlCursor) (e : PathError),
    specGoToml cur p = .error e →
    ∃ q fail rest, e.pfx? = some q ∧ p = q ++ fail :: rest ∧
      ∃ v, specGoToml cur q = .ok v := by
  induction p with
  | nil => intro cur e h; simp [specGoToml] at h
  | cons s rest ih =>
    intro cur e h
    cases hs : specStepToml cur s with
    | error e0 =>
      simp [specGoToml, hs] at h
      subst h
      exact ⟨[], s, rest, specStepToml_error_pfx cur s e0 hs, rfl, cur, rfl⟩
    | ok next =>
      simp only [specGoToml, hs] at h
      cases hr : specGoToml next rest with
      | ok v => rw [hr] at h; exact Except.noConfusion h
      | error e1 =>
        rw [hr] at h
        simp only [mapErr] at h
        injection h with h
        subst h
        obtain ⟨q, fail, rr, hp, hrest, v, hok⟩ := ih next e1 hr
        refine ⟨s :: q, fail, rr, pfx?_underSeg s e1 q hp, by simp [hrest], v, ?_⟩
        simp [specGoToml, hs, hok, mapErr]

/-- Counterexample to C2 as stated: resolving key a on a JSON null
document fails with an empty resolved prefix, and re-resolving that empty
prefix does not succeed on the same document — it fails fast with
EmptyPath. -/
theorem c2_counterexample :
    get_json_at_path Json.Null [PathSeg.Key ("a")] =
      .error (.NotAnObject [] ("a") .Null)
  ∧ get_json_at_path Json.Null [] = .error .EmptyPath :=
  ⟨rfl, rfl⟩

/-- C2 (amended): every prefix-carrying resolution error of either
backend carries exactly the segments resolved before the failing segment
— a proper prefix of the input path that excludes the failing segment —
and, when that prefix is non-empty, re-resolving it alone on the same
document succeeds.  (The empty prefix cannot be re-resolved: the empty
path is rejected with EmptyPath.) -/
theorem c2_error_pfx_exact :
    (∀ (root : Json) (p : ValuePath) (e : PathError) (q : ValuePath),
      get_json_at_path root p = .error e → e.pfx? = some q →
      (∃ fail rest, p = q ++ fail :: rest) ∧
      (q ≠ [] → ∃ v, get_json_at_path root q = .ok v))
  ∧ (∀ (root : TomlItem) (p : ValuePath) (e : PathError) (q : ValuePath),
      get_toml_at_path root p = .error e → e.pfx? = some q →
      (∃ fail rest, p = q ++ fail :: rest) ∧
      (q ≠ [] → ∃ v, get_toml_at_path root q = .ok v)) := by
  constructor
  · intro root p e q h hq
    unfold get_json_at_path at h
    split at h
    · injection h with h
      subst h
      simp [PathError.pfx?] at hq
    · rw [goJson_eq_spec, mapErr_addPfx_nil] at h
      obtain ⟨q2, fail, rest, hp, hrest, v, hok⟩ := specGoJson_error_data p root e h
      rw [hq] at hp
      injection hp with hp
      subst hp
      refine ⟨⟨fail, rest, hrest⟩, ?_⟩
      intro hq2
      refine ⟨v, ?_⟩
      unfold get_json_at_path
      split
      · simp_all
      · rw [goJson_eq_spec, mapErr_addPfx_nil, hok]
  · intro root p e q h hq
    unfold get_toml_at_path at h
    split at h
    · injection h with h
      subst h
      simp [PathError.pfx?] at hq
    · rw [goToml_eq_spec, mapErr_addPfx_nil] at h
      have h2 : goToml (.Item root) [] p = .error e := by
        rw [goToml_eq_spec, mapErr_addPfx_nil]
        cases hg : specGoToml (.Item root) p with
        | ok v => rw [hg] at h; exact Except.noConfusion h
        | error e2 => rw [hg] at h; injection h with h; subst h; rfl
      rw [goToml_eq_spec, mapErr_addPfx_nil] at h2
      obtain ⟨q2, fail, rest, hp, hrest, v, hok⟩ := specGoToml_error_data p (.Item root) e h2
      rw [hq] at hp
      injection hp with hp
      subst hp
      refine ⟨⟨fail, rest, hrest⟩, ?_⟩
      intro hq2
      refine ⟨v.toAt, ?_⟩
      unfold get_toml_at_path
      split
      · simp_all
      · rw [goToml_eq_spec, mapErr_addPfx_nil, hok]
        rfl

/-- Witness for C2 at a concrete document and path: the KeyNotFound error
for network.missing carries prefix network, which is a proper prefix of
the input and itself resolves successfully. -/
theorem c2_error_pfx_exact_witness :
    (∃ fail rest,
      [PathSeg.Key ("network"), PathSeg.Key ("missing")] =
        [PathSeg.Key ("network")] ++ fail :: rest)
  ∧ ([PathSeg.Key ("network")] ≠ ([] : ValuePath) → ∃ v,
      get_json_at_path
        (Json.Object [(("network"), Json.Object [(("timeout"), Json.Number (.PosInt 500))])])
        [PathSeg.Key ("network")] = .ok v) :=
  c2_error_pfx_exact.1
    (Json.Object [(("network"), Json.Object [(("timeout"), Json.Number (.PosInt 500))])])
    [PathSeg.Key ("network"), PathSeg.Key ("missing")]
    (.KeyNotFound [PathSeg.Key ("network")] ("missing"))
    [PathSeg.Key ("network")] rfl rfl

/-- C3: indexing a TOML array-of-tables in bounds yields a Table cursor —
not a Value cursor — so a later Key on it uses table semantics: a present
key succeeds with an Item cursor, an absent key fails with KeyNotFound,
and an Index applied directly to the Table cursor fails with NotAnArray. -/
theorem c3_array_of_tables_table_semantics :
    (∀ (ts : List TomlTable) (i : Nat) (tbl : TomlTable) (pfx : ValuePath)
        (rest : List PathSeg),
      ts[i]? = some tbl →
      goToml (.Item (.ArrayOfTables ts)) pfx (.Index i :: rest) =
        goToml (.Table tbl) (pfx ++ [.Index i]) rest)
  ∧ (∀ (t : TomlTable) (k : String) (item : TomlItem) (pfx : ValuePath),
      tableGet t k = some item →
      goToml (.Table t) pfx [.Key k] = .ok (.Item item))
  ∧ (∀ (t : TomlTable) (k : String) (pfx : ValuePath),
      tableGet t k = none →
      goToml (.Table t) pfx [.Key k] = .error (.KeyNotFound pfx k))
  ∧ (∀ (t : TomlTable) (i : Nat) (pfx : ValuePath) (rest : List PathSeg),
      goToml (.Table t) pfx (.Index i :: rest) = .error (.NotAnArray pfx i .Object)) := by
  refine ⟨?_, ?_, ?_, ?_⟩
  · intro ts i tbl pfx rest h
    simp [goToml, h]
  · intro t k item pfx h
    simp [goToml, h]
  · intro t k pfx h
    simp [goToml, h]
  · intro t i pfx rest
    simp [goToml, TomlCursor.type_kind, TypeKind.from_toml_item]

/-- Witness for C3 on a one-element array-of-tables with a host key. -/
theorem c3_array_of_tables_table_semantics_witness :
    goToml (.Item (.ArrayOfTables [TomlTable.mk [(("host"), TomlItem.Value (TomlValue.String ("a")))]]))
        [] [PathSeg.Index 0, PathSeg.Key ("host")] =
      goToml (.Table (TomlTable.mk [(("host"), TomlItem.Value (TomlValue.String ("a")))]))
        [PathSeg.Index 0] [PathSeg.Key ("host")]
  ∧ goToml (.Table (TomlTable.mk [(("host"), TomlItem.Value (TomlValue.String ("a")))]))
        [PathSeg.Index 0] [PathSeg.Key ("host")] =
      .ok (.Item (TomlItem.Value (TomlValue.String ("a"))))
  ∧ goToml (.Table (TomlTable.mk [])) [] [PathSeg.Key ("zz")] =
      .error (.KeyNotFound [] ("zz")) :=
  ⟨c3_array_of_tables_table_semantics.1 _ 0 _ [] _ rfl,
   c3_array_of_tables_table_semantics.2.1 _ ("host") _ [PathSeg.Index 0] rfl,
   c3_array_of_tables_table_semantics.2.2.1 _ ("zz") [] rfl⟩

theorem natDigitChar_isDigit (d : Nat) (h : d < 10) :
    (natDigitChar d).isDigit = true := by
  interval_cases d <;> decide

theorem natDigitChar_val (d : Nat) (h : d < 10) :
    (natDigitChar d).toNat - 48 = d := by
  interval_cases d <;> decide

theorem natToDigits_ne_nil (n : Nat) : natToDigits n ≠ [] := by
  rw [natToDigits]
  split <;> simp

theorem natToDigits_all_digit (n : Nat) :
    ∀ c ∈ natToDigits n, isDigitChar c = true := by
  induction n using Nat.strong_induction_on with
  | _ n ih =>
    rw [natToDigits]
    split
    · intro c hc
      simp at hc
      subst hc
      exact natDigitChar_isDigit n (by omega)
    · intro c hc
      rw [List.mem_append] at hc
      rcases hc with hc | hc
      · exact ih (n / 10) (Nat.div_lt_self (by omega) (by omega)) c hc
      · simp at hc
        subst hc
        exact natDigitChar_isDigit (n % 10) (Nat.mod_lt _ (by omega))

theorem digitsToNat_append_one (l : List Char) (c : Char) :
    digitsToNat (l ++ [c]) = digitsToNat l * 10 + (c.toNat - 48) := by
  simp [digitsToNat, List.foldl_append]

theorem digitsToNat_natToDigits (n : Nat) :
    digitsToNat (natToDigits n) = n := by
  induction n using Nat.strong_induction_on with
  | _ n ih =>
    rw [natToDigits]
    split
    · rename_i h
      simp [digitsToNat]
      exact natDigitChar_val n h
    · rename_i h
      rw [digitsToNat_append_one,
        ih (n / 10) (Nat.div_lt_self (by omega) (by omega)),
        natDigitChar_val (n % 10) (Nat.mod_lt _ (by omega))]
      omega

theorem renderFrom_ne_zero (rest : List PathSeg) : ∀ i, i ≠ 0 →
    renderFrom i rest = joinDotted rest := by
  induction rest with
  | nil => intro i h; rfl
  | cons s t ih =>
    intro i h
    cases s with
    | Key k =>
      simp only [renderFrom, joinDotted, renderSegDotted, if_neg h]
      rw [ih (i + 1) (by omega)]
    | Index idx =>
      simp only [renderFrom, joinDotted, renderSegDotted]
      rw [ih (i + 1) (by omega)]

theorem joinDotted_data_shape (rest : List PathSeg) :
    (joinDotted rest).data = [] ∨
    (∃ cs, (joinDotted rest).data = '.' :: cs) ∨
    (∃ cs, (joinDotted rest).data = '[' :: cs) := by
  cases rest with
  | nil => left; rfl
  | cons s t =>
    cases s with
    | Key k => right; left; exact ⟨k.data ++ (joinDotted t).data, rfl⟩
    | Index idx =>
      right; right
      exact ⟨(natToDigits idx ++ [']']) ++ (joinDotted t).data, rfl⟩

theorem parsePathSegs_joinDotted (rest : List PathSeg) (hok : rest.all segOk = true) :
    parsePathSegs ((joinDotted rest).data) = some rest := by
  induction rest with
  | nil =>
    show parsePathSegs (("" : String).data) = some []
    have h0 : ("" : String).data = [] := rfl
    rw [h0, parsePathSegs]
  | cons s t ih =>
    rw [List.all_cons, Bool.and_eq_true] at hok
    obtain ⟨hs, ht⟩ := hok
    have htail := ih ht
    cases s with
    | Key k =>
      have hk : keyOk k = true := hs
      have hkne : k.data ≠ [] := by
        intro hnil
        simp [keyOk, hnil] at hk
      have hkeys : ∀ c ∈ k.data, isIdentChar c = true := by
        simp only [keyOk, Bool.and_eq_true, List.all_eq_true] at hk
        exact fun c hc => hk.2 c hc
      have htw : (k.data ++ (joinDotted t).data).takeWhile isIdentChar = k.data := by
        rw [List.takeWhile_append_of_pos hkeys]
        rcases joinDotted_data_shape t with h0 | ⟨cs, h1⟩ | ⟨cs, h1⟩
        · rw [h0]; simp
        · rw [h1, List.takeWhile_cons_of_neg (by decide)]; simp
        · rw [h1, List.takeWhile_cons_of_neg (by decide)]; simp
      have hdw : (k.data ++ (joinDotted t).data).dropWhile isIdentChar = (joinDotted t).data := by
        rw [List.dropWhile_append_of_pos hkeys]
        rcases joinDotted_data_shape t with h0 | ⟨cs, h1⟩ | ⟨cs, h1⟩
        · rw [h0]; rfl
        · rw [h1, List.dropWhile_cons_of_neg (by decide)]
        · rw [h1, List.dropWhile_cons_of_neg (by decide)]
      show parsePathSegs ('.' :: (k.data ++ (joinDotted t).data)) = some (PathSeg.Key k :: t)
      rw [parsePathSegs]
      simp [htw, hdw, htail, hkne]
    | Index idx =>
      have hdigits : ∀ c ∈ natToDigits idx, isDigitChar c = true := natToDigits_all_digit idx
      have hne := natToDigits_ne_nil idx
      have hassoc : ((natToDigits idx ++ [']']) ++ (joinDotted t).data)
          = natToDigits idx ++ (']' :: (joinDotted t).data) := by simp
      have htw : (natToDigits idx ++ (']' :: (joinDotted t).data)).takeWhile isDigitChar
          = natToDigits idx := by
        rw [List.takeWhile_append_of_pos hdigits, List.takeWhile_cons_of_neg (by decide)]
        simp
      have hdw : (natToDigits idx ++ (']' :: (joinDotted t).data)).dropWhile isDigitChar
          = ']' :: (joinDotted t).data := by
        rw [List.dropWhile_append_of_pos hdigits, List.dropWhile_cons_of_neg (by decide)]
      show parsePathSegs ('[' :: ((natToDigits idx ++ [']']) ++ (joinDotted t).data))
          = some (PathSeg.Index idx :: t)
      rw [hassoc, parsePathSegs]
      simp [htw, hdw, htail, hne, digitsToNat_natToDigits]

theorem parsePathSegs_all_segOk :
    ∀ (n : Nat) (l : List Char), l.length ≤ n → ∀ segs,
      parsePathSegs l = some segs → segs.all segOk = true := by
  intro n
  induction n with
  | zero =>
    intro l hl segs h
    have hnil : l = [] := List.eq_nil_of_length_eq_zero (by omega)
    subst hnil
    rw [parsePathSegs] at h
    injection h with h
    subst h
    rfl
  | succ n ihn =>
    intro l hl segs h
    cases l with
    | nil =>
      rw [parsePathSegs] at h
      injection h with h
      subst h
      rfl
    | cons c cs =>
      simp only [parsePathSegs] at h
      simp only [List.length_cons] at hl
      by_cases hc : c = '.'
      · rw [if_pos hc] at h
        by_cases hid : cs.takeWhile isIdentChar = []
        · rw [if_pos hid] at h
          exact Option.noConfusion h
        · rw [if_neg hid] at h
          cases hp : parsePathSegs (cs.dropWhile isIdentChar) with
          | none => rw [hp] at h; exact Option.noConfusion h
          | some segs2 =>
            rw [hp] at h
            injection h with h
            subst h
            rw [List.all_cons, Bool.and_eq_true]
            constructor
            · show keyOk (String.mk (cs.takeWhile isIdentChar)) = true
              rw [keyOk, Bool.and_eq_true]
              constructor
              · cases hcase : cs.takeWhile isIdentChar with
                | nil => exact absurd hcase hid
                | cons a b => rfl
              · rw [List.all_eq_true]
                intro c2 hc2
                exact List.mem_takeWhile_imp hc2
            · have hlen : (cs.dropWhile isIdentChar).length ≤ n := by
                have hd : (cs.dropWhile isIdentChar).length ≤ cs.length :=
                  (List.dropWhile_sublist _).length_le
                omega
              exact ihn _ hlen segs2 hp
      · rw [if_neg hc] at h
        by_cases hb : c = '['
        · rw [if_pos hb] at h
          by_cases hds : cs.takeWhile isDigitChar = []
          · rw [if_pos hds] at h
            exact Option.noConfusion h
          · rw [if_neg hds] at h
            by_cases hh : (cs.dropWhile isDigitChar).head? = some ']'
            · rw [if_pos hh] at h
              cases hp : parsePathSegs (cs.dropWhile isDigitChar).tail with
              | none => rw [hp] at h; exact Option.noConfusion h
              | some segs2 =>
                rw [hp] at h
                injection h with h
                subst h
                rw [List.all_cons, Bool.and_eq_true]
                refine ⟨rfl, ?_⟩
                have hlen : (cs.dropWhile isDigitChar).tail.length ≤ n := by
                  have h1 : (cs.dropWhile isDigitChar).length ≤ cs.length :=
                    (List.dropWhile_sublist _).length_le
                  have h2 : (cs.dropWhile isDigitChar).tail.length ≤
                      (cs.dropWhile isDigitChar).length := by
                    cases cs.dropWhile isDigitChar <;> simp
                  omega
                exact ihn _ hlen segs2 hp
            · rw [if_neg hh] at h
              exact Option.noConfusion h
        · rw [if_neg hb] at h
          exact Option.noConfusion h

theorem parsePath_sound (s : String) (p : List PathSeg) (h : parsePath s = some p) :
    pathOk p = true := by
  simp only [parsePath] at h
  by_cases hid : s.data.takeWhile isIdentChar = []
  · rw [if_pos hid] at h
    exact Option.noConfusion h
  · rw [if_neg hid] at h
    cases hp : parsePathSegs (s.data.dropWhile isIdentChar) with
    | none => rw [hp] at h; exact Option.noConfusion h
    | some segs =>
      rw [hp] at h
      injection h with h
      subst h
      show (keyOk (String.mk (s.data.takeWhile isIdentChar)) && segs.all segOk) = true
      rw [Bool.and_eq_true]
      constructor
      · rw [keyOk, Bool.and_eq_true]
        constructor
        · cases hcase : s.data.takeWhile isIdentChar with
          | nil => exact absurd hcase hid
          | cons a b => rfl
        · rw [List.all_eq_true]
          intro c2 hc2
          exact List.mem_takeWhile_imp hc2
      · exact parsePathSegs_all_segOk (s.data.dropWhile isIdentChar).length _ le_rfl segs hp

theorem parsePath_render (p : List PathSeg) (hok : pathOk p = true) :
    parsePath (ValuePath.render p) = some p := by
  cases p with
  | nil => simp [pathOk] at hok
  | cons s rest =>
    cases s with
    | Index i => simp [pathOk] at hok
    | Key k =>
      have hok2 : (keyOk k && rest.all segOk) = true := hok
      rw [Bool.and_eq_true] at hok2
      obtain ⟨hk, hrest⟩ := hok2
      have hkne : k.data ≠ [] := by
        intro hnil
        simp [keyOk, hnil] at hk
      have hkeys : ∀ c ∈ k.data, isIdentChar c = true := by
        simp only [keyOk, Bool.and_eq_true, List.all_eq_true] at hk
        exact fun c hc => hk.2 c hc
      have hrender : ValuePath.render (PathSeg.Key k :: rest) = k ++ joinDotted rest := by
        show renderFrom 0 (PathSeg.Key k :: rest) = _
        rw [renderFrom, renderFrom_ne_zero rest 1 (by omega)]
        simp
      rw [hrender]
      have hdata : (k ++ joinDotted rest).data = k.data ++ (joinDotted rest).data := rfl
      have htw : (k.data ++ (joinDotted rest).data).takeWhile isIdentChar = k.data := by
        rw [List.takeWhile_append_of_pos hkeys]
        rcases joinDotted_data_shape rest with h0 | ⟨cs, h1⟩ | ⟨cs, h1⟩
        · rw [h0]; simp
        · rw [h1, List.takeWhile_cons_of_neg (by decide)]; simp
        · rw [h1, List.takeWhile_cons_of_neg (by decide)]; simp
      have hdw : (k.data ++ (joinDotted rest).data).dropWhile isIdentChar
          = (joinDotted rest).data := by
        rw [List.dropWhile_append_of_pos hkeys]
        rcases joinDotted_data_shape rest with h0 | ⟨cs, h1⟩ | ⟨cs, h1⟩
        · rw [h0]; rfl
        · rw [h1, List.dropWhile_cons_of_neg (by decide)]
        · rw [h1, List.dropWhile_cons_of_neg (by decide)]
      simp only [parsePath, hdata, htw, hdw, parsePathSegs_joinDotted rest hrest, hkne]
      simp

/-- C8: for every syntactically valid path string (spec-modelled grammar),
parsing the canonical rendering of its parse yields the same path, so the
rendered text is a fixed point of render-after-parse; and the canonical
rendering of a Key-headed ValuePath is the bare first key — no leading
dot — followed by each later segment as a dotted key or a bracketed
decimal index. -/
theorem c8_render_parse_fixed_point :
    (∀ (s : String) (p : ValuePath), parsePath s = some p →
      parsePath (ValuePath.render p) = some p)
  ∧ (∀ (k : String) (rest : List PathSeg),
      ValuePath.render (PathSeg.Key k :: rest) = k ++ joinDotted rest) := by
  constructor
  · intro s p h
    exact parsePath_render p (parsePath_sound s p h)
  · intro k rest
    show renderFrom 0 (PathSeg.Key k :: rest) = _
    rw [renderFrom, renderFrom_ne_zero rest 1 (by omega)]
    simp

/-- Witness for C8 at servers[0].host: the parse of its rendering is the
parse itself. -/
theorem c8_render_parse_fixed_point_witness :
    parsePath (ValuePath.render [PathSeg.Key ("servers"), PathSeg.Index 0, PathSeg.Key ("host")]) =
      some [PathSeg.Key ("servers"), PathSeg.Index 0, PathSeg.Key ("host")] :=
  c8_render_parse_fixed_point.1 ("servers[0].host")
    [PathSeg.Key ("servers"), PathSeg.Index 0, PathSeg.Key ("host")]
    (by simp [parsePath, parsePathSegs, digitsToNat, isIdentChar, isDigitChar])

theorem offset_aux_spec (cs : List Char) : ∀ (i off line col acc : Nat),
    col = acc + 1 →
    offset_to_line_col_aux cs i off line col =
      (line + (charsBefore cs i off).count '\n',
       (charsBefore cs i off).foldl (fun a c => if c = '\n' then 0 else a + 1) acc + 1) := by
  induction cs with
  | nil =>
    intro i off line col acc h
    subst h
    simp [offset_to_line_col_aux, charsBefore]
  | cons c cs ih =>
    intro i off line col acc h
    subst h
    by_cases hio : i ≥ off
    · simp [offset_to_line_col_aux, charsBefore, hio]
    · by_cases hnl : c = '\n'
      · subst hnl
        simp only [offset_to_line_col_aux, charsBefore, if_neg hio, if_pos rfl]
        rw [ih (i + Char.utf8Size '\n') off (line + 1) 1 0 rfl]
        rw [Prod.mk.injEq]
        constructor
        · simp [List.count_cons]
          omega
        · simp
      · simp only [offset_to_line_col_aux, charsBefore, if_neg hio, if_neg hnl]
        rw [ih (i + c.utf8Size) off line (acc + 1 + 1) (acc + 1) rfl]
        rw [Prod.mk.injEq]
        constructor
        · simp [List.count_cons, hnl]
        · simp [hnl]

/-- C9 (amended): parse-error locations are computed exactly by counting
newline characters up to the failing byte offset, line and column
starting at 1 with the column resetting after each newline; and the
snippet is the offending line, a newline, column-minus-one spaces and a
caret under the failing column whenever that line exists in the source,
but is the empty string when the computed line is past the last line
(an offset at end of input just after a trailing newline). -/
theorem c9_location_and_snippet :
    (∀ (src : String) (off : Nat), offset_to_line_col src off = specLineCol src off)
  ∧ (∀ (src : String) (line col : Nat) (l : String),
      (rustLines src)[line - 1]? = some l →
      extract_snippet src line col =
        l ++ "\n" ++ String.mk (List.replicate (col - 1) ' ') ++ "^")
  ∧ (∀ (src : String) (line col : Nat),
      (rustLines src)[line - 1]? = none →
      extract_snippet src line col = "") := by
  refine ⟨?_, ?_, ?_⟩
  · intro src off
    show offset_to_line_col_aux src.data 0 off 1 1 = _
    rw [offset_aux_spec src.data 0 off 1 1 0 rfl]
    rw [specLineCol, Prod.mk.injEq]
    constructor
    · omega
    · omega
  · intro src line col l h
    rw [extract_snippet, h]
    by_cases hc : col > 1
    · simp [hc]
    · have h0 : col - 1 = 0 := by omega
      simp [hc, h0]
  · intro src line col h
    rw [extract_snippet, h]

/-- Counterexample to C9 as stated: at the source consisting of the
letter a and a newline, with failing byte offset 2 (end of input), the
location is line 2 column 1, but the attached snippet is empty — there is
no line 2 to reproduce and no caret line is produced. -/
theorem c9_counterexample :
    offset_to_line_col ("a\n") 2 = (2, 1)
  ∧ extract_snippet ("a\n") 2 1 = "" :=
  ⟨rfl, rfl⟩

/-- Witness for C9 at a one-line source: the snippet under column 5 is
the line, a newline, four spaces and a caret; and a line index past the
source yields the empty snippet. -/
theorem c9_location_and_snippet_witness :
    extract_snippet ("x = 1") 1 5 =
      ("x = 1") ++ "\n" ++ String.mk (List.replicate 4 ' ') ++ "^"
  ∧ extract_snippet ("x = 1") 3 1 = "" :=
  ⟨c9_location_and_snippet.2.1 ("x = 1") 1 5 ("x = 1") rfl,
   c9_location_and_snippet.2.2 ("x = 1") 3 1 rfl⟩
